import Mathlib

/-!
Verification development for the rendering-resource core of the PMK UI toolkit.

The definitions below are shallow embeddings of the C++ sources:
- src/ui/core/TextUtils.hpp          (UTF-8 aware text wrapping)
- src/ui/managers/FontManager.hpp    (UTF-8 decoding, string measuring, glyph rendering)
- src/ui/managers/IconManager.cpp    (LRU icon texture cache)
- src/ui/managers/TextureAtlas.hpp   (shelf bin-packing atlas)
- src/ui/managers/CommandBuffer.hpp  (per-frame GPU buffer management)

Byte strings are lists of naturals (byte values), pixel widths are rationals
(the C++ float accumulators only ever hold integer-valued data here, since
FreeType 26.6 fixed-point values are shifted right by 6 bits before use),
and external library calls (FreeType, SDL GPU) are modelled by environment
records of oracle functions describing their outcomes.
-/

/-! ### TextUtils.hpp -/

/-- Embedding of ui::utils::IsUtf8StartByte: a byte is a UTF-8 start byte
unless its top two bits are 10. -/
def IsUtf8StartByte (c : Nat) : Bool :=
  (c &&& 0xC0) != 0x80

/-- The wrap-mode policy enum policies::TextWrap with the three values used
by the wrapping code. -/
inductive TextWrap where
  | NONE
  | Word
  | Char
deriving DecidableEq, Repr

/-- Fuel-indexed worker for the UTF-8 unit decomposition: each unit is one
byte followed by the maximal run of continuation bytes, exactly as the loops
in TextUtils.hpp walk the string with NextCharPos. Every step consumes at
least one byte, so fuel equal to the byte count always suffices; the fuel
pattern only makes the recursion structural. -/
def charUnitsF : Nat → List Nat → List (List Nat)
  | _, [] => []
  | 0, _ :: _ => []
  | fuel + 1, b :: rest =>
      (b :: rest.takeWhile (fun c => !IsUtf8StartByte c)) ::
        charUnitsF fuel (rest.dropWhile (fun c => !IsUtf8StartByte c))

/-- Decomposition of a byte string into UTF-8 character units. -/
def charUnits (s : List Nat) : List (List Nat) :=
  charUnitsF s.length s

/-- One step of the character-level wrapping loops in WrapParagraph (both the
Char-mode loop and the forced character break inside pushWord): state is the
pair of finished lines and the line being built. -/
def charWrapStep (measure : List Nat → ℚ) (maxWidth : Int)
    (st : List (List Nat) × List Nat) (ch : List Nat) :
    List (List Nat) × List Nat :=
  if measure (st.2 ++ ch) > (maxWidth : ℚ) ∧ st.2 ≠ [] then
    (st.1 ++ [st.2], ch)
  else
    (st.1, st.2 ++ ch)

/-- Embedding of the pushWord lambda inside WrapParagraph (Word mode): words
that fit extend the current line (with a separating space byte 32), overlong
words are broken character by character. -/
def pushWord (measure : List Nat → ℚ) (maxWidth : Int)
    (st : List (List Nat) × List Nat) (w : List Nat) :
    List (List Nat) × List Nat :=
  if w = [] then st
  else if measure w > (maxWidth : ℚ) then
    let lines1 := if st.2 ≠ [] then st.1 ++ [st.2] else st.1
    (charUnits w).foldl (charWrapStep measure maxWidth) (lines1, [])
  else
    let testLine := if st.2 = [] then w else st.2 ++ [32] ++ w
    if measure testLine > (maxWidth : ℚ) ∧ st.2 ≠ [] then (st.1 ++ [st.2], w)
    else (st.1, testLine)

/-- Fuel-indexed worker for the byte-scanning loop of WrapParagraph's Word
mode: a space (32) or tab (9) byte flushes the accumulated word through
pushWord, any other byte extends the word by one whole character unit. Every
step consumes at least one byte, so fuel equal to the byte count always
suffices; the fuel pattern only makes the recursion structural. -/
def wordWrapLoopF (measure : List Nat → ℚ) (maxWidth : Int) :
    Nat → List Nat → (List (List Nat) × List Nat) → List Nat →
    (List (List Nat) × List Nat) × List Nat
  | _, [], st, word => (st, word)
  | 0, _ :: _, st, word => (st, word)
  | fuel + 1, c :: rest, st, word =>
    if c = 32 ∨ c = 9 then
      wordWrapLoopF measure maxWidth fuel rest (pushWord measure maxWidth st word) []
    else
      wordWrapLoopF measure maxWidth fuel
        (rest.dropWhile (fun b => !IsUtf8StartByte b)) st
        (word ++ (c :: rest.takeWhile (fun b => !IsUtf8StartByte b)))

/-- The byte-scanning loop of WrapParagraph's Word mode. Returns the final
(lines, currentLine) state together with the still unflushed word. -/
def wordWrapLoop (measure : List Nat → ℚ) (maxWidth : Int) (bytes : List Nat)
    (st : List (List Nat) × List Nat) (word : List Nat) :
    (List (List Nat) × List Nat) × List Nat :=
  wordWrapLoopF measure maxWidth bytes.length bytes st word

/-- Embedding of ui::utils::WrapParagraph from TextUtils.hpp: wraps a single
newline-free paragraph either character by character (Char mode) or word by
word (every other mode). -/
def WrapParagraph (measure : List Nat → ℚ) (maxWidth : Int) (wrapMode : TextWrap)
    (paragraph : List Nat) : List (List Nat) :=
  if paragraph = [] then [[]]
  else if wrapMode = TextWrap.Char then
    let st := (charUnits paragraph).foldl (charWrapStep measure maxWidth) ([], [])
    if st.2 ≠ [] then st.1 ++ [st.2] else st.1
  else
    let r := wordWrapLoop measure maxWidth paragraph ([], []) []
    let st := pushWord measure maxWidth r.1 r.2
    if st.2 ≠ [] then st.1 ++ [st.2] else st.1

/-- One step of the newline-splitting loop in WrapTextLines: a newline byte
(10) wraps the paragraph collected so far (when non-empty) and always appends
an explicit empty output line; any other byte extends the paragraph. -/
def paragraphStep (measure : List Nat → ℚ) (maxWidth : Int) (wrapMode : TextWrap)
    (st : List (List Nat) × List Nat) (c : Nat) :
    List (List Nat) × List Nat :=
  if c = 10 then
    ((if st.2 ≠ [] then st.1 ++ WrapParagraph measure maxWidth wrapMode st.2 else st.1)
      ++ [[]], [])
  else
    (st.1, st.2 ++ [c])

/-- Embedding of ui::utils::WrapTextLines from TextUtils.hpp: mode NONE or a
non-positive width returns the text as a single line, otherwise the text is
split at newline bytes and each paragraph wrapped by WrapParagraph. -/
def WrapTextLines (measure : List Nat → ℚ) (maxWidth : Int) (wrapMode : TextWrap)
    (text : List Nat) : List (List Nat) :=
  if wrapMode = TextWrap.NONE ∨ maxWidth ≤ 0 then [text]
  else
    let st := text.foldl (paragraphStep measure maxWidth wrapMode) ([], [])
    if st.2 ≠ [] then st.1 ++ WrapParagraph measure maxWidth wrapMode st.2 else st.1

/-- A line that is a single UTF-8 character unit: one byte followed only by
continuation bytes. Such a line cannot be split further by the wrappers. -/
def isSingleUnit (L : List Nat) : Bool :=
  match L with
  | [] => false
  | _ :: rest => rest.all (fun c => !IsUtf8StartByte c)

/-! ### FontManager.hpp -/

/-- Embedding of FontManager::decodeUTF8: returns the decoded code point and
the number of bytes the character occupies, or none where the C++ returns
length 0 (empty input, invalid lead byte, or fewer bytes available than the
lead byte announces). Continuation bytes are not validated, exactly as in
the source: only their low six bits are used. -/
def decodeUTF8 : List Nat → Option (Nat × Nat)
  | [] => none
  | b0 :: rest =>
    if b0 < 0x80 then some (b0, 1)
    else if b0 &&& 0xE0 == 0xC0 then
      match rest with
      | b1 :: _ => some (((b0 &&& 0x1F) <<< 6) ||| (b1 &&& 0x3F), 2)
      | [] => none
    else if b0 &&& 0xF0 == 0xE0 then
      match rest with
      | b1 :: b2 :: _ =>
        some (((b0 &&& 0x0F) <<< 12) ||| ((b1 &&& 0x3F) <<< 6) ||| (b2 &&& 0x3F), 3)
      | _ => none
    else if b0 &&& 0xF8 == 0xF0 then
      match rest with
      | b1 :: b2 :: b3 :: _ =>
        some (((b0 &&& 0x07) <<< 18) ||| ((b1 &&& 0x3F) <<< 12) |||
              ((b2 &&& 0x3F) <<< 6) ||| (b3 &&& 0x3F), 4)
      | _ => none
    else none

/-- The number of bytes a UTF-8 lead byte announces, read off the branch
conditions of decodeUTF8; none for a byte that is not a valid lead byte. -/
def utf8SeqLen (b0 : Nat) : Option Nat :=
  if b0 < 0x80 then some 1
  else if b0 &&& 0xE0 == 0xC0 then some 2
  else if b0 &&& 0xF0 == 0xE0 then some 3
  else if b0 &&& 0xF8 == 0xF0 then some 4
  else none

/-- Environment record abstracting the FreeType calls made by
FontManager::measureString and FontManager::renderGlyph: character-to-glyph
mapping, kerning, glyph loading and rasterization outcomes. Advances and
kerning deltas are the 26.6 fixed-point values shifted right by 6 bits, hence
integers. -/
structure FontEnv where
  charIndex : Nat → Nat
  hasKerning : Bool
  kern : Nat → Nat → Int
  loadOk : Nat → Bool
  advance : Nat → Int

/-- Fuel-indexed worker for the scanning loop of FontManager::measureString:
carries the accumulated width and the previous glyph index, and returns the
final width together with the number of bytes consumed from the remainder.
A kerning delta is added before the advance check; the loop breaks without
consuming the current character when adding its advance would push the width
past a positive maxWidth, and breaks when decoding fails. Every step consumes
at least one byte, so fuel equal to the byte count always suffices; the fuel
pattern only makes the recursion structural. -/
def msAuxF (env : FontEnv) (maxWidth : Int) :
    Nat → List Nat → Int → Nat → Int × Nat
  | 0, _, total, _ => (total, 0)
  | fuel + 1, rem, total, prev =>
    match decodeUTF8 rem with
    | none => (total, 0)
    | some (cp, len) =>
      let gi := env.charIndex cp
      let total1 :=
        if env.hasKerning = true ∧ prev ≠ 0 ∧ gi ≠ 0 then total + env.kern prev gi
        else total
      if env.loadOk gi then
        let adv := env.advance gi
        if 0 < maxWidth ∧ maxWidth < total1 + adv then (total1, 0)
        else
          let r := msAuxF env maxWidth fuel (rem.drop len) (total1 + adv) gi
          (r.1, len + r.2)
      else
        let r := msAuxF env maxWidth fuel (rem.drop len) total1 gi
        (r.1, len + r.2)

/-- The scanning loop of FontManager::measureString over the remaining
bytes. -/
def msAux (env : FontEnv) (maxWidth : Int) (rem : List Nat) (total : Int)
    (prev : Nat) : Int × Nat :=
  msAuxF env maxWidth rem.length rem total prev

/-- Embedding of FontManager::measureString: walks the UTF-8 input, summing
glyph advances (plus kerning) until the input ends, a decode fails, or the
width limit would be exceeded; returns the total width and the number of
bytes consumed. The C++ float accumulator holds only integer values (26.6
advances shifted right by 6), so the final ceil is the identity and Int is
exact. -/
def measureString (env : FontEnv) (text : List Nat) (maxWidth : Int) :
    Int × Nat :=
  if text = [] then (0, 0)
  else msAux env maxWidth text 0 0

/-- Association-list lookup standing in for std::unordered_map::find. -/
def assocFind {κ α : Type} [BEq κ] (m : List (κ × α)) (k : κ) : Option α :=
  (m.find? (fun p => p.1 == k)).map (fun p => p.2)

/-- Association-list write standing in for std::unordered_map::operator[]
followed by assignment: replaces an existing binding, or appends a new one. -/
def assocSet {κ α : Type} [BEq κ] (m : List (κ × α)) (k : κ) (v : α) :
    List (κ × α) :=
  if m.any (fun p => p.1 == k) then
    m.map (fun p => if p.1 == k then (k, v) else p)
  else m ++ [(k, v)]

/-- Embedding of the GlyphInfo record of FontManager.hpp. The advance is the
26.6 value shifted right by 6, hence an integer. -/
structure GlyphInfo where
  width : Nat
  height : Nat
  bearingX : Int
  bearingY : Int
  advanceX : Int
  bitmap : List Nat
deriving DecidableEq, Repr

/-- The zero-initialized GlyphInfo the C++ returns on failure paths. -/
def emptyGlyphInfo : GlyphInfo :=
  { width := 0, height := 0, bearingX := 0, bearingY := 0, advanceX := 0, bitmap := [] }

/-- Rasterization oracle extending FontEnv for FontManager::renderGlyph:
whether FT_Render_Glyph succeeds for a glyph index, the glyph slot contents
produced at a given active pixel size, and whether FT_Set_Pixel_Sizes
succeeds for a given size. -/
structure RasterEnv where
  font : FontEnv
  renderOk : Nat → Bool
  slotGlyph : Nat → ℚ → GlyphInfo
  setSizeOk : ℚ → Bool

/-- Mutable rasterizer state of FontManager: the active pixel size and the
glyph cache keyed by makeGlyphCacheKey. -/
structure FMState where
  fontSize : ℚ
  glyphCache : List (Nat × GlyphInfo)
deriving Repr

/-- Embedding of FontManager::makeGlyphCacheKey: the size is scaled by 10 and
truncated to a 32-bit value forming the high half of the key, the code point
(truncated to 32 bits) the low half. -/
def makeGlyphCacheKey (codepoint : Nat) (fontSize : ℚ) : Nat :=
  ((fontSize * 10).floor.toNat % 2 ^ 32) * 2 ^ 32 + codepoint % 2 ^ 32

/-- Embedding of FontManager::setPixelSize: non-positive sizes are ignored;
the stored size is updated only if FT_Set_Pixel_Sizes succeeds. -/
def setPixelSize (env : RasterEnv) (st : FMState) (size : ℚ) : FMState :=
  if size ≤ 0 then st
  else if env.setSizeOk size then { st with fontSize := size } else st

/-- Embedding of FontManager::renderGlyph: a cache hit returns the cached
glyph; otherwise the pixel size is changed temporarily when the requested
size differs from the active one by more than 0.1, the glyph is loaded and
rendered (early-returning the empty info when either step fails), the size
is restored, and the result is cached. -/
def renderGlyph (env : RasterEnv) (st : FMState) (codepoint : Nat)
    (fontSize : ℚ) : FMState × GlyphInfo :=
  let targetSize := if fontSize > 0 then fontSize else st.fontSize
  let cacheKey := makeGlyphCacheKey codepoint targetSize
  match assocFind st.glyphCache cacheKey with
  | some info => (st, info)
  | none =>
    let needRestore := |targetSize - st.fontSize| > (1 / 10 : ℚ)
    let oldSize := st.fontSize
    let st1 := if needRestore then setPixelSize env st targetSize else st
    let glyphIndex := env.font.charIndex codepoint
    if env.font.loadOk glyphIndex = false then (st1, emptyGlyphInfo)
    else if env.renderOk glyphIndex = false then (st1, emptyGlyphInfo)
    else
      let info := env.slotGlyph glyphIndex st1.fontSize
      let st2 := if needRestore then setPixelSize env st1 oldSize else st1
      ({ st2 with glyphCache := assocSet st2.glyphCache cacheKey info }, info)

/-! ### TextureAtlas.hpp -/

/-- Embedding of the Shelf packing row of TextureAtlas.hpp (named AtlasShelf
here because Mathlib already has a Shelf). -/
structure AtlasShelf where
  y : Nat
  height : Nat
  x : Nat
deriving DecidableEq, Repr

/-- Embedding of the AtlasGlyph record: normalized UV rectangle, pixel
rectangle, and render metrics. -/
structure AtlasGlyph where
  u0 : ℚ
  v0 : ℚ
  u1 : ℚ
  v1 : ℚ
  x : Nat
  y : Nat
  width : Nat
  height : Nat
  bearingX : Int
  bearingY : Int
  advanceX : ℚ
deriving DecidableEq, Repr

/-- Packing state of TextureAtlas: texture size, padding, the shelves, the
vertical cursor, and the glyph map. -/
structure Atlas where
  size : Nat
  padding : Nat
  shelves : List AtlasShelf
  currentShelfY : Nat
  glyphMap : List (Nat × AtlasGlyph)
deriving DecidableEq, Repr

/-- GPU oracle for TextureAtlas: whether SDL_CreateGPUTexture succeeds for a
texture of the given size. -/
structure AtlasEnv where
  createTexOk : Nat → Bool

/-- The loop condition of TextureAtlas::allocate: a shelf accepts the padded
glyph when its height suffices and the padded width fits in the remaining
row. -/
def shelfFits (size gw gh : Nat) (s : AtlasShelf) : Bool :=
  decide (gh ≤ s.height ∧ s.x + gw ≤ size)

/-- The shelf-scanning loop of TextureAtlas::allocate: first fit in creation
order, advancing the accepting shelf's x cursor. -/
def allocShelves (size gw gh : Nat) : List AtlasShelf → Option (Nat × Nat × List AtlasShelf)
  | [] => none
  | s :: rest =>
    if shelfFits size gw gh s then
      some (s.x, s.y, { s with x := s.x + gw } :: rest)
    else
      match allocShelves size gw gh rest with
      | some (ax, ay, rest') => some (ax, ay, s :: rest')
      | none => none

/-- Embedding of TextureAtlas::allocate: try existing shelves first-fit, then
open a new shelf at the vertical cursor when the padded height still fits,
else fail. -/
def allocate (st : Atlas) (width height : Nat) :
    Option (Nat × Nat × Atlas) :=
  let glyphWidth := width + st.padding
  let glyphHeight := height + st.padding
  match allocShelves st.size glyphWidth glyphHeight st.shelves with
  | some (ax, ay, shelves') => some (ax, ay, { st with shelves := shelves' })
  | none =>
    if st.currentShelfY + glyphHeight ≤ st.size then
      some (0, st.currentShelfY,
        { st with
            shelves := st.shelves ++ [⟨st.currentShelfY, glyphHeight, glyphWidth⟩],
            currentShelfY := st.currentShelfY + glyphHeight })
    else none

/-- Embedding of TextureAtlas::expand: fails at or beyond 4096 or when the
doubled texture cannot be created; on success doubles the size and discards
the whole packing state (glyph map, shelves, vertical cursor). -/
def expand (env : AtlasEnv) (st : Atlas) : Option Atlas :=
  if 4096 ≤ st.size then none
  else if env.createTexOk (st.size * 2) then
    some { st with size := st.size * 2, glyphMap := [], shelves := [],
                   currentShelfY := 0 }
  else none

/-- Embedding of TextureAtlas::uploadBitmap: the stub fails exactly on a null
bitmap or non-positive dimensions and succeeds otherwise. -/
def uploadBitmap (bitmapNonNull : Bool) (width height : Nat) : Bool :=
  bitmapNonNull && decide (0 < width) && decide (0 < height)

/-- The tail of TextureAtlas::addGlyph after space was allocated at (x, y):
upload the bitmap, build the AtlasGlyph with normalized UVs, and cache it. -/
def addGlyphFinish (st : Atlas) (codepoint : Nat) (bitmapNonNull : Bool)
    (width height : Nat) (bearingX bearingY : Int) (advanceX : ℚ)
    (x y : Nat) : Atlas × Option AtlasGlyph :=
  if uploadBitmap bitmapNonNull width height then
    let glyph : AtlasGlyph :=
      { x := x, y := y, width := width, height := height,
        bearingX := bearingX, bearingY := bearingY, advanceX := advanceX,
        u0 := (x : ℚ) / (st.size : ℚ), v0 := (y : ℚ) / (st.size : ℚ),
        u1 := ((x + width : Nat) : ℚ) / (st.size : ℚ),
        v1 := ((y + height : Nat) : ℚ) / (st.size : ℚ) }
    ({ st with glyphMap := assocSet st.glyphMap codepoint glyph }, some glyph)
  else (st, none)

/-- Embedding of TextureAtlas::addGlyph: return a cached entry if present;
otherwise allocate, expanding (and retrying the allocation once) on failure,
then upload and cache. -/
def addGlyph (env : AtlasEnv) (st : Atlas) (codepoint : Nat)
    (bitmapNonNull : Bool) (width height : Nat) (bearingX bearingY : Int)
    (advanceX : ℚ) : Atlas × Option AtlasGlyph :=
  match assocFind st.glyphMap codepoint with
  | some g => (st, some g)
  | none =>
    match allocate st width height with
    | some (x, y, st1) =>
      addGlyphFinish st1 codepoint bitmapNonNull width height bearingX bearingY
        advanceX x y
    | none =>
      match expand env st with
      | none => (st, none)
      | some stE =>
        match allocate stE width height with
        | none => (stE, none)
        | some (x, y, st1) =>
          addGlyphFinish st1 codepoint bitmapNonNull width height bearingX
            bearingY advanceX x y

/-! ### IconManager.cpp -/

/-- Capacity of the icon font-texture cache (IconManager.hpp). -/
def MAX_FONT_CACHE_SIZE : Nat := 128

/-- Batch eviction size of the icon font-texture cache (IconManager.hpp). -/
def EVICTION_BATCH : Nat := 16

/-- Embedding of CachedTextureEntry: texture dimensions plus the LRU
metadata. The steady-clock access time is modelled as a natural number. -/
structure CachedTextureEntry where
  width : Nat
  height : Nat
  lastAccessTime : Nat
  accessCount : Nat
deriving DecidableEq, Repr

/-- Environment oracle for IconManager::getTextureInfo: which fonts are
loaded with a valid face, whether FT_Set_Pixel_Sizes succeeds, the bitmap
dimensions produced by loading and rendering a glyph (none when either
FreeType call fails), whether the GPU device exists, and whether texture
creation and upload succeed. -/
structure IconEnv where
  hasFont : String → Bool
  setSizeOk : String → Nat → Bool
  glyphBitmap : String → Nat → Nat → Option (Nat × Nat)
  deviceOk : Bool
  createTexOk : Bool

/-- Mutable IconManager state relevant to the font-texture cache. -/
structure IconState where
  fontTextureCache : List (String × CachedTextureEntry)
  evictionCount : Nat
deriving DecidableEq, Repr

/-- Embedding of IconManager::quantizeSize: round up to the standard ladder,
clamping to 128. -/
def quantizeSize (size : ℚ) : ℚ :=
  if size ≤ 16 then 16
  else if size ≤ 24 then 24
  else if size ≤ 32 then 32
  else if size ≤ 48 then 48
  else if size ≤ 64 then 64
  else if size ≤ 96 then 96
  else if size ≤ 128 then 128
  else 128

/-- The cache key built in IconManager::getTextureInfo:
font name, code point, and the quantized size truncated to int, joined by
underscores. -/
def fontCacheKey (fontName : String) (codepoint : Nat) (quantized : ℚ) :
    String :=
  fontName ++ "_" ++ toString codepoint ++ "_" ++ toString quantized.floor.toNat

/-- The cache-hit update of getTextureInfo: refresh the access time and bump
the access count of the entry with the given key. -/
def touchEntry (cache : List (String × CachedTextureEntry)) (key : String)
    (now : Nat) : List (String × CachedTextureEntry) :=
  cache.map (fun p =>
    if p.1 == key then
      (p.1, { p.2 with lastAccessTime := now, accessCount := p.2.accessCount + 1 })
    else p)

/-- The linear minimum scan of IconManager::evictLRUFromFontCache: starting
from the first entry, keep the strictly older entry, so the first entry with
the minimal access time wins, in iteration order. -/
def lruEntry : List (String × CachedTextureEntry) →
    Option (String × CachedTextureEntry)
  | [] => none
  | p :: rest =>
    some (rest.foldl
      (fun best q => if q.2.lastAccessTime < best.2.lastAccessTime then q else best)
      p)

/-- Insertion by access time, the ordering used by the batch-eviction sort of
evictLRUFromFontCache. -/
def insertByTime (p : String × CachedTextureEntry) :
    List (String × CachedTextureEntry) → List (String × CachedTextureEntry)
  | [] => [p]
  | q :: rest =>
    if p.2.lastAccessTime ≤ q.2.lastAccessTime then p :: q :: rest
    else q :: insertByTime p rest

/-- Sort by ascending access time (std::sort on the (key, time) snapshot in
evictLRUFromFontCache; std::sort is unstable, so any time-sorted permutation
is a faithful model). -/
def sortByTime (cache : List (String × CachedTextureEntry)) :
    List (String × CachedTextureEntry) :=
  cache.foldr insertByTime []

/-- Embedding of IconManager::evictLRUFromFontCache: nothing happens on an
empty cache or a null device; otherwise the entry with the minimal access
time is erased, and if the cache is still at or above capacity, the oldest
EVICTION_BATCH entries of the time-sorted snapshot are erased as well. -/
def evictLRUFromFontCache (env : IconEnv) (st : IconState) : IconState :=
  if st.fontTextureCache = [] then st
  else if env.deviceOk = false then st
  else
    match lruEntry st.fontTextureCache with
    | none => st
    | some lru =>
      let cache1 := st.fontTextureCache.eraseP (fun p => p.1 == lru.1)
      let st1 : IconState :=
        { fontTextureCache := cache1, evictionCount := st.evictionCount + 1 }
      if MAX_FONT_CACHE_SIZE ≤ st1.fontTextureCache.length then
        let victims :=
          ((sortByTime st1.fontTextureCache).take
            (min EVICTION_BATCH st1.fontTextureCache.length)).map (fun p => p.1)
        let cache2 :=
          victims.foldl (fun c k => c.eraseP (fun p => p.1 == k))
            st1.fontTextureCache
        { fontTextureCache := cache2,
          evictionCount := st1.evictionCount + victims.length }
      else st1

/-- Embedding of IconManager::getTextureInfo: quantize the size and build the
cache key; on a hit refresh the LRU metadata and return the cached texture
info; on a miss evict first when the cache is at capacity, then look up the
font, set the pixel size, load and render the glyph, reject empty bitmaps,
require a device, create and upload the texture, and insert the new entry.
Returns the new state and the returned texture dimensions (none where the
C++ returns nullptr). -/
def getTextureInfo (env : IconEnv) (st : IconState) (fontName : String)
    (codepoint : Nat) (size : ℚ) (now : Nat) :
    IconState × Option (Nat × Nat) :=
  let quantizedSize := quantizeSize size
  let cacheKey := fontCacheKey fontName codepoint quantizedSize
  match assocFind st.fontTextureCache cacheKey with
  | some e =>
    ({ st with fontTextureCache := touchEntry st.fontTextureCache cacheKey now },
     some (e.width, e.height))
  | none =>
    let st1 :=
      if MAX_FONT_CACHE_SIZE ≤ st.fontTextureCache.length then
        evictLRUFromFontCache env st
      else st
    if env.hasFont fontName = false then (st1, none)
    else if env.setSizeOk fontName quantizedSize.floor.toNat = false then
      (st1, none)
    else
      match env.glyphBitmap fontName codepoint quantizedSize.floor.toNat with
      | none => (st1, none)
      | some (width, height) =>
        if width = 0 ∨ height = 0 then (st1, none)
        else if env.deviceOk = false then (st1, none)
        else if env.createTexOk = false then (st1, none)
        else
          let entry : CachedTextureEntry :=
            { width := width, height := height, lastAccessTime := now,
              accessCount := 1 }
          ({ st1 with
               fontTextureCache := assocSet st1.fontTextureCache cacheKey entry },
           some (width, height))

/-! ### CommandBuffer.hpp -/

/-- Ring depth of the per-frame resources (CommandBuffer.hpp). -/
def MAX_FRAMES_IN_FLIGHT : Nat := 2

/-- Embedding of a RenderBatch as consumed by CommandBuffer::execute: only
the vertex and index counts and the presence of texture and scissor matter
to the control flow modelled here. -/
structure RenderBatch where
  vertices : Nat
  indices : Nat
  hasTexture : Bool
  hasScissor : Bool
deriving DecidableEq, Repr

/-- Embedding of the FrameResource record: byte sizes of the per-frame GPU
vertex and index buffers. -/
structure FrameResource where
  vertexBufferSize : Nat
  indexBufferSize : Nat
deriving DecidableEq, Repr

/-- Mutable CommandBuffer state: the frame counter, the two ring slots, and
the shared transfer buffer size. -/
structure CBState where
  frameIndex : Nat
  frame0 : FrameResource
  frame1 : FrameResource
  transferBufferSize : Nat
deriving DecidableEq, Repr

/-- GPU oracle for CommandBuffer::execute: device presence, buffer-creation,
transfer-map, command-buffer-acquisition and swapchain outcomes, plus the
size of render::Vertex (RenderTypes.hpp is not part of the sources at hand,
so the stride is left abstract). -/
structure CBEnv where
  devicePresent : Bool
  vertexStride : Nat
  createBufOk : Bool
  mapOk : Bool
  acquireOk : Bool
  swapchainAcquireOk : Bool
  swapchainNonNull : Bool

/-- Observable GPU-side effects of one CommandBuffer::execute call. -/
inductive GpuAction where
  | transferWrite (bytes : Nat)
  | cancel
  | submit
deriving DecidableEq, Repr

/-- Embedding of CommandBuffer::calculateBatchTotals: sum vertex and index
counts over all batches in 32-bit arithmetic. -/
def calculateBatchTotals (batches : List RenderBatch) : Nat × Nat :=
  batches.foldl
    (fun acc b => ((acc.1 + b.vertices) % 2 ^ 32, (acc.2 + b.indices) % 2 ^ 32))
    (0, 0)

/-- The grow-only doubling policy of CommandBuffer::resizeBuffers for one
buffer: new size = needed when that exceeds twice the current size, else
twice the current size. -/
def growSize (current needed : Nat) : Nat :=
  if needed > current * 2 then needed else current * 2

/-- Embedding of CommandBuffer::resizeBuffers: grow the shared transfer
buffer and the frame's vertex and index buffers in that order, mutating each
size before attempting creation, and stop at the first failed creation.
Returns the updated frame resource and transfer size plus a success flag. -/
def resizeBuffers (env : CBEnv) (frame : FrameResource)
    (transferSize vSize iSize : Nat) : FrameResource × Nat × Bool :=
  let neededTransfer := vSize + iSize
  let t1 :=
    if transferSize < neededTransfer then
      let g := growSize transferSize neededTransfer
      if g < neededTransfer then neededTransfer else g
    else transferSize
  if transferSize < neededTransfer ∧ env.createBufOk = false then
    (frame, t1, false)
  else
    let v1 :=
      if frame.vertexBufferSize < vSize then growSize frame.vertexBufferSize vSize
      else frame.vertexBufferSize
    if frame.vertexBufferSize < vSize ∧ env.createBufOk = false then
      ({ frame with vertexBufferSize := v1 }, t1, false)
    else
      let i1 :=
        if frame.indexBufferSize < iSize then growSize frame.indexBufferSize iSize
        else frame.indexBufferSize
      if frame.indexBufferSize < iSize ∧ env.createBufOk = false then
        ({ frame with vertexBufferSize := v1, indexBufferSize := i1 }, t1, false)
      else
        ({ frame with vertexBufferSize := v1, indexBufferSize := i1 }, t1, true)

/-- Write the ring slot selected by the current frame index back into the
state, together with the transfer buffer size. -/
def setCurrentFrame (st : CBState) (fr : FrameResource) (tbs : Nat) : CBState :=
  if st.frameIndex % MAX_FRAMES_IN_FLIGHT = 0 then
    { st with frame0 := fr, transferBufferSize := tbs }
  else
    { st with frame1 := fr, transferBufferSize := tbs }

/-- Embedding of CommandBuffer::execute: return immediately without a device
or when either batch total is zero; otherwise resize buffers (writing the
sizes back even on failure), map and fill the transfer buffer, acquire a
command buffer and a swapchain texture, record the copy and render passes,
submit, and advance the frame index. The returned list records the
observable GPU actions (transfer-buffer write, cancel, submit). -/
def execute (env : CBEnv) (st : CBState) (batches : List RenderBatch) :
    CBState × List GpuAction :=
  if env.devicePresent = false then (st, [])
  else
    let totals := calculateBatchTotals batches
    if totals.1 = 0 ∨ totals.2 = 0 then (st, [])
    else
      let totalVertexSize := (totals.1 * env.vertexStride) % 2 ^ 32
      let totalIndexSize := (totals.2 * 2) % 2 ^ 32
      let currentFrame :=
        if st.frameIndex % MAX_FRAMES_IN_FLIGHT = 0 then st.frame0 else st.frame1
      let r := resizeBuffers env currentFrame st.transferBufferSize
        totalVertexSize totalIndexSize
      let st1 := setCurrentFrame st r.1 r.2.1
      if r.2.2 = false then (st1, [])
      else if env.mapOk = false then (st1, [])
      else
        let acts := [GpuAction.transferWrite (totalVertexSize + totalIndexSize)]
        if env.acquireOk = false then (st1, acts)
        else if env.swapchainAcquireOk = false then
          (st1, acts ++ [GpuAction.cancel])
        else if env.swapchainNonNull = false then
          (st1, acts ++ [GpuAction.submit])
        else
          ({ st1 with frameIndex := st1.frameIndex + 1 },
           acts ++ [GpuAction.submit])

/-- A line fits when its measured width is within the limit or it is a single
unsplittable character unit. -/
def lineFits (measure : List Nat → ℚ) (maxWidth : Int) (L : List Nat) : Prop :=
  measure L ≤ (maxWidth : ℚ) ∨ isSingleUnit L = true

/-- Invariant of the wrapping loops: every finished line fits, and the line
under construction fits or is still empty. -/
def wrapInv (measure : List Nat → ℚ) (maxWidth : Int)
    (st : List (List Nat) × List Nat) : Prop :=
  (∀ L ∈ st.1, lineFits measure maxWidth L) ∧
    (lineFits measure maxWidth st.2 ∨ st.2 = [])

/-! ### Concrete environments and states used as witnesses -/

/-- Font environment with every glyph mapped, loadable, and of advance 10. -/
def fontEnvW : FontEnv :=
  { charIndex := fun c => c, hasKerning := false, kern := fun _ _ => 0,
    loadOk := fun _ => true, advance := fun _ => 10 }

/-- Rasterizer environment whose FT_Load_Glyph always fails. -/
def rasterEnvLoadFail : RasterEnv :=
  { font := { charIndex := fun c => c, hasKerning := false,
              kern := fun _ _ => 0, loadOk := fun _ => false,
              advance := fun _ => 10 },
    renderOk := fun _ => true, slotGlyph := fun _ _ => emptyGlyphInfo,
    setSizeOk := fun _ => true }

/-- Rasterizer state with active size 16 and an empty glyph cache. -/
def fmStateW : FMState := { fontSize := 16, glyphCache := [] }

/-- Icon environment where everything succeeds and glyphs render as 4x5. -/
def iconEnvW : IconEnv :=
  { hasFont := fun _ => true, setSizeOk := fun _ _ => true,
    glyphBitmap := fun _ _ _ => some (4, 5), deviceOk := true,
    createTexOk := true }

/-- Icon environment whose glyphs render to zero-width bitmaps. -/
def iconEnvZeroW : IconEnv :=
  { hasFont := fun _ => true, setSizeOk := fun _ _ => true,
    glyphBitmap := fun _ _ _ => some (0, 5), deviceOk := true,
    createTexOk := true }

/-- A full icon cache: 128 distinct entries with distinct access times. -/
def iconCache128 : List (String × CachedTextureEntry) :=
  (List.range 128).map (fun i =>
    (fontCacheKey "f" i 16,
     { width := 4, height := 5, lastAccessTime := i + 1, accessCount := 1 }))

/-- Icon state holding the full cache. -/
def iconStateFull : IconState :=
  { fontTextureCache := iconCache128, evictionCount := 0 }

/-- Icon state with an empty cache. -/
def iconStateEmpty : IconState := { fontTextureCache := [], evictionCount := 0 }

/-- Atlas environment where texture creation always succeeds. -/
def atlasEnvW : AtlasEnv := { createTexOk := fun _ => true }

/-- Atlas at default size 2048 with its vertical space exhausted, so the next
allocation fails. -/
def atlasFullW : Atlas :=
  { size := 2048, padding := 2, shelves := [], currentShelfY := 2048,
    glyphMap := [] }

/-- Atlas with two shelves for exercising first-fit allocation. -/
def atlasShelvesW : Atlas :=
  { size := 16, padding := 2, shelves := [⟨0, 10, 5⟩, ⟨10, 20, 0⟩],
    currentShelfY := 30, glyphMap := [] }

/-- Command-buffer environment where every GPU call succeeds. -/
def cbEnvW : CBEnv :=
  { devicePresent := true, vertexStride := 20, createBufOk := true,
    mapOk := true, acquireOk := true, swapchainAcquireOk := true,
    swapchainNonNull := true }

/-- Fresh command-buffer state. -/
def cbStateW : CBState :=
  { frameIndex := 0, frame0 := ⟨0, 0⟩, frame1 := ⟨0, 0⟩,
    transferBufferSize := 0 }

/-! ## Theorems -/

/-- Folding a step that preserves an invariant over a list of good elements
preserves the invariant. -/
theorem foldl_inv {α β : Type} {P : β → Prop} {Q : α → Prop} (f : β → α → β)
    (hstep : ∀ st a, P st → Q a → P (f st a)) :
    ∀ (l : List α) (st : β), P st → (∀ a ∈ l, Q a) → P (l.foldl f st) := by
  intro l
  induction l with
  | nil => intro st h _; simpa using h
  | cons a t ih =>
    intro st h hq
    simp only [List.foldl_cons]
    exact ih _ (hstep _ _ h (hq a (by simp)))
      (fun b hb => hq b (by simp [hb]))

/-- Every element of the fuel-indexed character-unit decomposition is a
single unit. -/
theorem charUnitsF_single (fuel : Nat) :
    ∀ (s : List Nat), ∀ u ∈ charUnitsF fuel s, isSingleUnit u = true := by
  induction fuel with
  | zero =>
    intro s u hu
    cases s <;> simp [charUnitsF] at hu
  | succ fuel ih =>
    intro s u hu
    cases s with
    | nil => simp [charUnitsF] at hu
    | cons b rest =>
      rw [charUnitsF] at hu
      rcases List.mem_cons.mp hu with rfl | h
      · simp only [isSingleUnit, List.all_eq_true]
        intro c hc
        simpa using List.mem_takeWhile_imp hc
      · exact ih _ u h

/-- Every element of the character-unit decomposition is a single unit. -/
theorem charUnits_single (s : List Nat) :
    ∀ u ∈ charUnits s, isSingleUnit u = true :=
  charUnitsF_single s.length s

/-- The character-level wrapping step preserves the wrap invariant when fed
single character units. -/
theorem charWrapStep_inv (measure : List Nat → ℚ) (maxWidth : Int)
    (st : List (List Nat) × List Nat) (ch : List Nat)
    (h : wrapInv measure maxWidth st) (hch : isSingleUnit ch = true) :
    wrapInv measure maxWidth (charWrapStep measure maxWidth st ch) := by
  unfold charWrapStep
  split
  · next hcond =>
    refine ⟨?_, Or.inl (Or.inr hch)⟩
    intro L hL
    rcases List.mem_append.mp hL with hL | hL
    · exact h.1 L hL
    · rcases List.mem_singleton.mp hL with rfl
      rcases h.2 with hfit | hempty
      · exact hfit
      · exact absurd hempty hcond.2
  · next hcond =>
    refine ⟨h.1, ?_⟩
    rw [not_and_or] at hcond
    rcases hcond with h1 | h2
    · exact Or.inl (Or.inl (not_lt.mp h1))
    · have he : st.2 = [] := not_not.mp h2
      rw [he]
      exact Or.inl (Or.inr (by simpa using hch))

/-- Flushing the current line into the finished lines preserves fitting. -/
theorem lines_push_ok (measure : List Nat → ℚ) (maxWidth : Int)
    (st : List (List Nat) × List Nat) (h : wrapInv measure maxWidth st) :
    ∀ L ∈ (if st.2 ≠ [] then st.1 ++ [st.2] else st.1),
      lineFits measure maxWidth L := by
  intro L hL
  by_cases hne : st.2 = []
  · rw [hne] at hL
    simp only [ne_eq, not_true_eq_false, if_false] at hL
    exact h.1 L hL
  · rw [if_pos hne] at hL
    rcases List.mem_append.mp hL with hL | hL
    · exact h.1 L hL
    · rcases List.mem_singleton.mp hL with rfl
      rcases h.2 with hfit | hempty
      · exact hfit
      · exact absurd hempty hne

/-- pushWord preserves the wrap invariant for any word. -/
theorem pushWord_inv (measure : List Nat → ℚ) (maxWidth : Int)
    (st : List (List Nat) × List Nat) (w : List Nat)
    (h : wrapInv measure maxWidth st) :
    wrapInv measure maxWidth (pushWord measure maxWidth st w) := by
  unfold pushWord
  split
  · exact h
  · split
    · exact foldl_inv _ (charWrapStep_inv measure maxWidth) _ _
        ⟨lines_push_ok measure maxWidth st h, Or.inr rfl⟩ (charUnits_single w)
    · next hwfit =>
      split
      · next he =>
        dsimp only
        split
        · next hcond => exact absurd he hcond.2
        · exact ⟨h.1, Or.inl (Or.inl (not_lt.mp hwfit))⟩
      · next he =>
        dsimp only
        split
        · next hcond =>
          refine ⟨?_, Or.inl (Or.inl (not_lt.mp hwfit))⟩
          intro L hL
          rcases List.mem_append.mp hL with hL | hL
          · exact h.1 L hL
          · rcases List.mem_singleton.mp hL with rfl
            rcases h.2 with hfit | hempty
            · exact hfit
            · exact absurd hempty he
        · next hcond =>
          rw [not_and_or] at hcond
          rcases hcond with h1 | h2
          · exact ⟨h.1, Or.inl (Or.inl (not_lt.mp h1))⟩
          · exact absurd (not_not.mp h2) he

/-- The fuel-indexed Word-mode byte scan preserves the wrap invariant of the
(lines, currentLine) state, whatever word is pending. -/
theorem wordWrapLoopF_inv (measure : List Nat → ℚ) (maxWidth : Int)
    (fuel : Nat) :
    ∀ (bytes : List Nat) (st : List (List Nat) × List Nat) (word : List Nat),
      wrapInv measure maxWidth st →
      wrapInv measure maxWidth
        (wordWrapLoopF measure maxWidth fuel bytes st word).1 := by
  induction fuel with
  | zero =>
    intro bytes st word h
    cases bytes <;> simpa [wordWrapLoopF] using h
  | succ fuel ih =>
    intro bytes st word h
    cases bytes with
    | nil => simpa [wordWrapLoopF] using h
    | cons c rest =>
      rw [wordWrapLoopF]
      split
      · exact ih _ _ _ (pushWord_inv measure maxWidth st word h)
      · exact ih _ _ _ h

/-- The Word-mode byte scan preserves the wrap invariant of the
(lines, currentLine) state, whatever word is pending. -/
theorem wordWrapLoop_inv (measure : List Nat → ℚ) (maxWidth : Int)
    (bytes : List Nat) (st : List (List Nat) × List Nat) (word : List Nat)
    (h : wrapInv measure maxWidth st) :
    wrapInv measure maxWidth (wordWrapLoop measure maxWidth bytes st word).1 :=
  wordWrapLoopF_inv measure maxWidth bytes.length bytes st word h

/-- Every line produced by WrapParagraph fits, is a single character unit, or
is the empty line produced for an empty paragraph. -/
theorem WrapParagraph_lines (measure : List Nat → ℚ) (maxWidth : Int)
    (wrapMode : TextWrap) (paragraph : List Nat) :
    ∀ L ∈ WrapParagraph measure maxWidth wrapMode paragraph,
      lineFits measure maxWidth L ∨ L = [] := by
  intro L hL
  unfold WrapParagraph at hL
  split at hL
  · rcases List.mem_singleton.mp hL with rfl
    exact Or.inr rfl
  · have base : wrapInv measure maxWidth ([], []) := by
      exact ⟨fun L hL => absurd hL (List.not_mem_nil L), Or.inr rfl⟩
    split at hL
    · have hinv := foldl_inv _ (charWrapStep_inv measure maxWidth)
        (charUnits paragraph) ([], []) base (charUnits_single paragraph)
      exact Or.inl (lines_push_ok measure maxWidth _ hinv L hL)
    · have hinv := pushWord_inv measure maxWidth
        (wordWrapLoop measure maxWidth paragraph ([], []) []).1
        (wordWrapLoop measure maxWidth paragraph ([], []) []).2
        (wordWrapLoop_inv measure maxWidth paragraph ([], []) [] base)
      exact Or.inl (lines_push_ok measure maxWidth _ hinv L hL)

/-- C2 (amended): for Char and Word wrapping with a positive width, every
output line of WrapTextLines measures at most maxWidth, or is a single
unsplittable character unit, or is one of the explicit empty lines emitted at
paragraph boundaries (for width measures that assign the empty string at most
maxWidth, the last case folds into the first). -/
theorem wrapText_lines_bounded (measure : List Nat → ℚ) (maxWidth : Int)
    (wrapMode : TextWrap) (text : List Nat) (hmode : wrapMode ≠ TextWrap.NONE)
    (hpos : 0 < maxWidth) :
    ∀ L ∈ WrapTextLines measure maxWidth wrapMode text,
      measure L ≤ (maxWidth : ℚ) ∨ isSingleUnit L = true ∨ L = [] := by
  intro L hL
  unfold WrapTextLines at hL
  rw [if_neg (by simp [hmode, not_le.mpr hpos])] at hL
  have key : ∀ st : List (List Nat) × List Nat,
      (∀ M ∈ st.1, lineFits measure maxWidth M ∨ M = []) →
      ∀ M ∈ (text.foldl (paragraphStep measure maxWidth wrapMode) st).1,
        lineFits measure maxWidth M ∨ M = [] := by
    intro st hst
    refine foldl_inv (P := fun st : List (List Nat) × List Nat =>
        ∀ M ∈ st.1, lineFits measure maxWidth M ∨ M = [])
      (Q := fun _ => True) _ ?_ text st hst (fun _ _ => trivial)
    intro s c hs _
    unfold paragraphStep
    split
    · intro M hM
      rcases List.mem_append.mp hM with hM | hM
      · by_cases hne : s.2 = []
        · rw [hne] at hM
          simp only [ne_eq, not_true_eq_false, if_false] at hM
          exact hs M hM
        · rw [if_pos hne] at hM
          rcases List.mem_append.mp hM with hM | hM
          · exact hs M hM
          · exact WrapParagraph_lines measure maxWidth wrapMode s.2 M hM
      · rcases List.mem_singleton.mp hM with rfl
        exact Or.inr rfl
    · exact hs
  have hall := key ([], []) (by intro M hM; cases hM)
  have hfin : lineFits measure maxWidth L ∨ L = [] := by
    dsimp only at hL
    set st := text.foldl (paragraphStep measure maxWidth wrapMode) ([], []) with hst
    by_cases hne : st.2 = []
    · rw [hne] at hL
      simp only [ne_eq, not_true_eq_false, if_false] at hL
      exact hall L hL
    · rw [if_pos hne] at hL
      rcases List.mem_append.mp hL with hL | hL
      · exact hall L hL
      · exact WrapParagraph_lines measure maxWidth wrapMode st.2 L hL
  rcases hfin with hfit | hempty
  · rcases hfit with hm | hs
    · exact Or.inl hm
    · exact Or.inr (Or.inl hs)
  · exact Or.inr (Or.inr hempty)

/-- C2 (counterexample): as stated, the claim fails: the constant measure 2
is monotone under string extension, yet wrapping the single newline byte in
Word mode at maxWidth 1 emits the explicit empty line, whose measure 2
exceeds the limit and which is not a single code point. -/
theorem wrap_width_claim_refuted :
    ¬ (∀ (measure : List Nat → ℚ) (maxWidth : Int) (wrapMode : TextWrap)
        (text : List Nat),
        (∀ s t : List Nat, measure s ≤ measure (s ++ t)) →
        wrapMode ≠ TextWrap.NONE → 0 < maxWidth →
        ∀ L ∈ WrapTextLines measure maxWidth wrapMode text,
          measure L ≤ (maxWidth : ℚ) ∨ isSingleUnit L = true) := by
  intro hclaim
  have h := hclaim (fun _ => (2 : ℚ)) 1 TextWrap.Word [10]
    (fun _ _ => le_refl (2 : ℚ)) (by decide) (by decide) []
    (by rw [show WrapTextLines (fun _ => (2 : ℚ)) 1 TextWrap.Word [10] = [[]]
          from rfl]
        exact List.mem_singleton.mpr rfl)
  rcases h with h | h
  · norm_num at h
  · simp [isSingleUnit] at h

/-- C2 (witness): the bound theorem applied to wrapping the three bytes
"abc" at width 2 with the byte-length measure, at the first output line. -/
theorem wrapText_lines_bounded_witness :
    (fun s : List Nat => (s.length : ℚ)) [97, 98] ≤ ((2 : Int) : ℚ) ∨
      isSingleUnit [97, 98] = true ∨ [97, 98] = ([] : List Nat) :=
  wrapText_lines_bounded (fun s => (s.length : ℚ)) 2 TextWrap.Char [97, 98, 99]
    (by decide) (by decide) [97, 98] (by decide)

/-- C3 (counterexample): wrapping the bytes of "Hello\nWorld" in Word mode
with the byte-length measure and maxWidth 100 (each word fits) does not
return the two lines "Hello", "World": the newline also contributes an
explicit empty line. -/
theorem helloWorld_two_lines_refuted :
    WrapTextLines (fun s => (s.length : ℚ)) 100 TextWrap.Word
        [72, 101, 108, 108, 111, 10, 87, 111, 114, 108, 100] ≠
      [[72, 101, 108, 108, 111], [87, 111, 114, 108, 100]] := by
  rw [show WrapTextLines (fun s => (s.length : ℚ)) 100 TextWrap.Word
        [72, 101, 108, 108, 111, 10, 87, 111, 114, 108, 100] =
      [[72, 101, 108, 108, 111], [], [87, 111, 114, 108, 100]] from rfl]
  decide

/-- C3 (amended): wrapping the bytes of "Hello\nWorld" in Word mode with the
byte-length measure and maxWidth 100 returns the three lines "Hello", "",
"World": every newline contributes an explicit empty output line after the
wrapped lines of the paragraph before it, not only when that paragraph is
empty. -/
theorem helloWorld_wrap_lines :
    WrapTextLines (fun s => (s.length : ℚ)) 100 TextWrap.Word
        [72, 101, 108, 108, 111, 10, 87, 111, 114, 108, 100] =
      [[72, 101, 108, 108, 111], [], [87, 111, 114, 108, 100]] := rfl

/-- A successful decode consumes between one byte and the whole input. -/
theorem decodeUTF8_pos {bytes : List Nat} {cp len : Nat}
    (h : decodeUTF8 bytes = some (cp, len)) :
    1 ≤ len ∧ len ≤ bytes.length := by
  rcases bytes with _ | ⟨b0, rest⟩
  · simp [decodeUTF8] at h
  · simp only [decodeUTF8] at h
    split at h
    · cases h; simp
    · split at h
      · rcases rest with _ | ⟨b1, r1⟩
        · cases h
        · cases h; simp only [List.length_cons]; omega
      · split at h
        · rcases rest with _ | ⟨b1, _ | ⟨b2, r2⟩⟩
          · cases h
          · cases h
          · cases h; simp only [List.length_cons]; omega
        · split at h
          · rcases rest with _ | ⟨b1, _ | ⟨b2, _ | ⟨b3, r3⟩⟩⟩
            · cases h
            · cases h
            · cases h
            · cases h; simp only [List.length_cons]; omega
          · cases h

/-- Consumption specification of the fuel-indexed measuring loop, for
sufficient fuel: the consumed byte count never exceeds the remainder, and
when the loop stops early, the stopping point either fails to decode or
decodes to a glyph whose advance would push the returned width past a
positive maxWidth. -/
theorem msAuxF_spec (env : FontEnv) (maxWidth : Int) (fuel : Nat) :
    ∀ (rem : List Nat) (total : Int) (prev : Nat), rem.length ≤ fuel →
      (msAuxF env maxWidth fuel rem total prev).2 ≤ rem.length ∧
      ((msAuxF env maxWidth fuel rem total prev).2 < rem.length →
        (decodeUTF8 (rem.drop (msAuxF env maxWidth fuel rem total prev).2) =
            none ∨
          (0 < maxWidth ∧ ∃ cp len,
            decodeUTF8 (rem.drop (msAuxF env maxWidth fuel rem total prev).2) =
              some (cp, len) ∧
            env.loadOk (env.charIndex cp) = true ∧
            maxWidth < (msAuxF env maxWidth fuel rem total prev).1 +
              env.advance (env.charIndex cp)))) := by
  induction fuel with
  | zero =>
    intro rem total prev hle
    have hnil : rem = [] := List.length_eq_zero.mp (Nat.le_zero.mp hle)
    subst hnil
    simp [msAuxF]
  | succ fuel ih =>
    intro rem total prev hle
    rw [msAuxF]
    cases hdec : decodeUTF8 rem with
    | none =>
      refine ⟨by simp, ?_⟩
      intro _
      exact Or.inl (by simpa using hdec)
    | some p =>
      obtain ⟨cp, len⟩ := p
      have hp := decodeUTF8_pos hdec
      dsimp only
      by_cases hload : env.loadOk (env.charIndex cp) = true
      · rw [if_pos hload]
        by_cases hbreak : 0 < maxWidth ∧ maxWidth <
            (if env.hasKerning = true ∧ prev ≠ 0 ∧ env.charIndex cp ≠ 0 then
              total + env.kern prev (env.charIndex cp)
            else total) + env.advance (env.charIndex cp)
        · rw [if_pos hbreak]
          refine ⟨by simp, ?_⟩
          intro _
          refine Or.inr ⟨hbreak.1, cp, len, by simpa using hdec, hload, ?_⟩
          simpa using hbreak.2
        · rw [if_neg hbreak]
          have hle' : (rem.drop len).length ≤ fuel := by
            rw [List.length_drop]; omega
          set t1 := (if env.hasKerning = true ∧ prev ≠ 0 ∧
                env.charIndex cp ≠ 0 then
              total + env.kern prev (env.charIndex cp)
            else total) + env.advance (env.charIndex cp) with ht1
          set r := msAuxF env maxWidth fuel (rem.drop len) t1 (env.charIndex cp)
            with hr
          obtain ⟨ih1, ih2⟩ := ih (rem.drop len) t1 (env.charIndex cp) hle'
          rw [← hr] at ih1 ih2
          rw [List.length_drop] at ih1
          constructor
          · show len + r.2 ≤ rem.length
            omega
          · intro hlt
            have hlt' : len + r.2 < rem.length := hlt
            have h2 := ih2 (by rw [List.length_drop]; omega)
            rw [List.drop_drop] at h2
            exact h2
      · rw [if_neg hload]
        have hle' : (rem.drop len).length ≤ fuel := by
          rw [List.length_drop]; omega
        set t1 := (if env.hasKerning = true ∧ prev ≠ 0 ∧
              env.charIndex cp ≠ 0 then
            total + env.kern prev (env.charIndex cp)
          else total) with ht1
        set r := msAuxF env maxWidth fuel (rem.drop len) t1 (env.charIndex cp)
          with hr
        obtain ⟨ih1, ih2⟩ := ih (rem.drop len) t1 (env.charIndex cp) hle'
        rw [← hr] at ih1 ih2
        rw [List.length_drop] at ih1
        constructor
        · show len + r.2 ≤ rem.length
          omega
        · intro hlt
          have hlt' : len + r.2 < rem.length := hlt
          have h2 := ih2 (by rw [List.length_drop]; omega)
          rw [List.drop_drop] at h2
          exact h2

/-- On a fresh call (zero accumulated width, no previous glyph), the measuring
loop always consumes the first decodable character when that character's
advance does not by itself exceed a positive maxWidth, or when it cannot be
loaded. -/
theorem msAuxF_progress (env : FontEnv) (maxWidth : Int) (fuel : Nat)
    (text : List Nat) (cp len : Nat)
    (hdec : decodeUTF8 text = some (cp, len))
    (hfit : env.loadOk (env.charIndex cp) = true →
      env.advance (env.charIndex cp) ≤ maxWidth ∨ maxWidth ≤ 0) :
    len ≤ (msAuxF env maxWidth (fuel + 1) text 0 0).2 := by
  rw [msAuxF]
  simp only [hdec]
  by_cases hload : env.loadOk (env.charIndex cp) = true
  · rw [if_pos hload]
    rw [if_neg ?hnb]
    case hnb =>
      rw [if_neg (show ¬(env.hasKerning = true ∧ (0 : Nat) ≠ 0 ∧
        env.charIndex cp ≠ 0) by simp)]
      rintro ⟨hpos, hlt⟩
      rcases hfit hload with h | h <;> omega
    exact Nat.le_add_right len _
  · rw [if_neg hload]
    exact Nat.le_add_right len _

/-- C4 (amended): measureString consumes at most the whole input; when it
stops before the end, the stopping point either fails to decode or is the
first code point whose advance would push the accumulated width past a
positive maxWidth; and a call makes progress past the first code point
whenever that code point decodes and its advance alone does not exceed the
limit (when it does, the call consumes zero bytes, as the counterexample
shows, so resuming from the returned offset does not advance). -/
theorem measureString_consume_correct (env : FontEnv) (text : List Nat)
    (maxWidth : Int) :
    (measureString env text maxWidth).2 ≤ text.length ∧
    ((measureString env text maxWidth).2 < text.length →
      (decodeUTF8 (text.drop (measureString env text maxWidth).2) = none ∨
        (0 < maxWidth ∧ ∃ cp len,
          decodeUTF8 (text.drop (measureString env text maxWidth).2) =
            some (cp, len) ∧
          env.loadOk (env.charIndex cp) = true ∧
          maxWidth < (measureString env text maxWidth).1 +
            env.advance (env.charIndex cp)))) ∧
    (∀ cp len, decodeUTF8 text = some (cp, len) →
      (env.loadOk (env.charIndex cp) = true →
        env.advance (env.charIndex cp) ≤ maxWidth ∨ maxWidth ≤ 0) →
      len ≤ (measureString env text maxWidth).2) := by
  by_cases htext : text = []
  · subst htext
    refine ⟨by simp [measureString], by simp [measureString], ?_⟩
    intro cp len hdec
    simp [decodeUTF8] at hdec
  · have hms : measureString env text maxWidth =
        msAuxF env maxWidth text.length text 0 0 := by
      simp [measureString, htext, msAux]
    obtain ⟨h1, h2⟩ := msAuxF_spec env maxWidth text.length text 0 0 (le_refl _)
    refine ⟨by rw [hms]; exact h1, by rw [hms]; exact h2, ?_⟩
    intro cp len hdec hfit
    obtain ⟨n, hn⟩ := Nat.exists_eq_succ_of_ne_zero
      (fun h0 => htext (List.length_eq_zero.mp h0))
    rw [hms, hn]
    exact msAuxF_progress env maxWidth n text cp len hdec hfit

/-- C4 (counterexample): with every glyph of advance 10, measuring the single
byte "a" against maxWidth 5 consumes zero bytes even though the input is
non-empty, so repeated calls resuming at the returned offset never cover the
string, refuting the unconditional progress and partition claim. -/
theorem measureString_progress_refuted :
    (measureString fontEnvW [97] 5).2 = 0 ∧ ([97] : List Nat) ≠ [] := by
  decide

/-- C4 (witness): the consumption theorem applied to measuring "ab" with
advance-10 glyphs against maxWidth 25: at most both bytes are consumed, and
at least the first is. -/
theorem measureString_consume_correct_witness :
    (measureString fontEnvW [97, 98] 25).2 ≤ 2 ∧
      1 ≤ (measureString fontEnvW [97, 98] 25).2 :=
  ⟨(measureString_consume_correct fontEnvW [97, 98] 25).1,
   (measureString_consume_correct fontEnvW [97, 98] 25).2.2 97 1 (by decide)
     (fun _ => Or.inl (by decide))⟩

/-- C7 (counterexample): decodeUTF8 does not stop at an invalid continuation
byte: 0x41 is not a continuation byte, yet the two-byte sequence [0xC2, 0x41]
decodes with length 2 (code point 0x81) instead of returning length 0. -/
theorem decodeUTF8_invalid_continuation_refuted :
    decodeUTF8 [0xC2, 0x41] = some (0x81, 2) ∧ (0x41 &&& 0xC0) ≠ 0x80 := by
  decide

/-- C7 (amended): decodeUTF8 returns length 0 exactly on empty input, an
invalid lead byte, or a sequence truncated below the length its lead byte
announces (so in particular a truncated multi-byte sequence at end of input);
continuation bytes themselves are never validated. The measuring loop stops
and consumes nothing when decoding fails, leaving the remainder unconsumed;
both functions are total, so no error is ever raised. -/
theorem decodeUTF8_failure_characterization :
    (∀ bytes : List Nat, (decodeUTF8 bytes = none ↔
      (bytes = [] ∨ ∃ b0, bytes.head? = some b0 ∧
        (utf8SeqLen b0 = none ∨
          ∃ n, utf8SeqLen b0 = some n ∧ bytes.length < n)))) ∧
    (∀ (env : FontEnv) (maxWidth : Int) (rem : List Nat) (total : Int)
        (prev : Nat), decodeUTF8 rem = none →
      msAux env maxWidth rem total prev = (total, 0)) := by
  constructor
  · intro bytes
    cases bytes with
    | nil => simp [decodeUTF8]
    | cons b0 rest =>
      by_cases h1 : b0 < 0x80
      · simp [decodeUTF8, utf8SeqLen, h1]
      · by_cases h2 : b0 &&& 0xE0 = 0xC0
        · cases rest with
          | nil => simp [decodeUTF8, utf8SeqLen, h1, h2]
          | cons b1 r1 => simp [decodeUTF8, utf8SeqLen, h1, h2]
        · by_cases h3 : b0 &&& 0xF0 = 0xE0
          · rcases rest with _ | ⟨b1, _ | ⟨b2, r2⟩⟩ <;>
              simp [decodeUTF8, utf8SeqLen, h1, h2, h3]
          · by_cases h4 : b0 &&& 0xF8 = 0xF0
            · rcases rest with _ | ⟨b1, _ | ⟨b2, _ | ⟨b3, r3⟩⟩⟩ <;>
                simp [decodeUTF8, utf8SeqLen, h1, h2, h3, h4]
            · simp [decodeUTF8, utf8SeqLen, h1, h2, h3, h4]
  · intro env maxWidth rem total prev hdec
    unfold msAux
    cases hl : rem.length with
    | zero => rw [msAuxF]
    | succ n => rw [msAuxF]; simp [hdec]

/-- C7 (witness): the measuring loop applied to a lone continuation byte with
accumulated width 3 returns that width and consumes nothing. -/
theorem decodeUTF8_failure_characterization_witness :
    msAux fontEnvW 5 [0x80] 3 0 = (3, 0) :=
  decodeUTF8_failure_characterization.2 fontEnvW 5 [0x80] 3 0 (by decide)

/-- C8 (code bug): renderGlyph at a one-off size leaves the rasterizer at the
temporary size when FT_Load_Glyph fails: starting from active size 16,
requesting codepoint 65 at size 32 in an environment where glyph loading
fails returns with the active size still 32 instead of restoring 16. -/
theorem renderGlyph_size_not_restored :
    ((renderGlyph rasterEnvLoadFail fmStateW 65 32).1).fontSize = 32 ∧
      fmStateW.fontSize = 16 := by
  constructor
  · norm_num [renderGlyph, rasterEnvLoadFail, fmStateW, assocFind,
      setPixelSize, abs_sub_lt_iff]
  · rfl

/-- An association lookup misses exactly when no entry carries the key. -/
theorem assocFind_eq_none {κ α : Type} [BEq κ] (m : List (κ × α)) (k : κ) :
    assocFind m k = none ↔ ∀ p ∈ m, (p.1 == k) = false := by
  unfold assocFind
  rw [Option.map_eq_none', List.find?_eq_none]
  constructor
  · intro h p hp
    have := h p hp
    simpa using this
  · intro h p hp
    simp [h p hp]

/-- Lookup misses are preserved when passing to a sublist of the entries. -/
theorem assocFind_none_of_sublist {κ α : Type} [BEq κ]
    {m' m : List (κ × α)} (hsub : m'.Sublist m) {k : κ}
    (h : assocFind m k = none) : assocFind m' k = none := by
  rw [assocFind_eq_none] at h ⊢
  intro p hp
  exact h p (hsub.mem hp)

/-- Writing a different key preserves a lookup miss. -/
theorem assocFind_assocSet_ne {κ α : Type} [BEq κ] [LawfulBEq κ]
    {m : List (κ × α)} {k k' : κ} (v : α) (hne : k' ≠ k)
    (h : assocFind m k = none) : assocFind (assocSet m k' v) k = none := by
  rw [assocFind_eq_none] at h ⊢
  intro p hp
  unfold assocSet at hp
  split at hp
  · rcases List.mem_map.mp hp with ⟨q, hq, rfl⟩
    split
    · simpa using hne
    · exact h q hq
  · rcases List.mem_append.mp hp with hp | hp
    · exact h p hp
    · rcases List.mem_singleton.mp hp with rfl
      simpa using hne
  
/-- Erasing a key removes it entirely when the keys are distinct. -/
theorem assocFind_eraseP_self {α : Type}
    {m : List (String × α)} (hnd : (m.map Prod.fst).Nodup) (k : String) :
    assocFind (m.eraseP (fun p => p.1 == k)) k = none := by
  induction m with
  | nil => simp [assocFind]
  | cons p ps ih =>
    rw [List.map_cons, List.nodup_cons] at hnd
    by_cases hp : (p.1 == k) = true
    · rw [List.eraseP_cons, hp, cond_true]
      rw [assocFind_eq_none]
      intro q hq
      have hk : p.1 = k := by simpa using hp
      by_contra hqk
      have hqt : (q.1 == k) = true := by simpa using hqk
      have hq1 : q.1 = k := by simpa using hqt
      refine hnd.1 ?_
      rw [hk, ← hq1]
      exact List.mem_map_of_mem Prod.fst hq
    · have hp' : (p.1 == k) = false := by simpa using hp
      rw [List.eraseP_cons, hp', cond_false]
      rw [assocFind_eq_none]
      intro q hq
      rcases List.mem_cons.mp hq with rfl | hq
      · exact hp'
      · have hrec := ih hnd.2
        rw [assocFind_eq_none] at hrec
        exact hrec q hq

/-- Writing one entry grows the cache by at most one. -/
theorem assocSet_length_le {κ α : Type} [BEq κ] (m : List (κ × α)) (k : κ)
    (v : α) : (assocSet m k v).length ≤ m.length + 1 := by
  unfold assocSet
  split
  · simp
  · simp

/-- The minimum scan returns an element of the list. -/
theorem lruEntry_mem {l : List (String × CachedTextureEntry)}
    {p : String × CachedTextureEntry} (h : lruEntry l = some p) : p ∈ l := by
  cases l with
  | nil => simp [lruEntry] at h
  | cons q rest =>
    simp only [lruEntry, Option.some.injEq] at h
    subst h
    have : ∀ (rest : List (String × CachedTextureEntry)) (acc),
        rest.foldl (fun best q =>
          if q.2.lastAccessTime < best.2.lastAccessTime then q else best) acc
          ∈ acc :: rest := by
      intro rest
      induction rest with
      | nil => simp
      | cons r rs ih =>
        intro acc
        rw [List.foldl_cons]
        rcases List.mem_cons.mp (ih (if r.2.lastAccessTime <
            acc.2.lastAccessTime then r else acc)) with h | h
        · rw [h]
          split
          · exact List.mem_cons_of_mem _ (List.mem_cons_self _ _)
          · exact List.mem_cons_self _ _
        · exact List.mem_cons_of_mem _ (List.mem_cons_of_mem _ h)
    exact this rest q

/-- The minimum scan returns an entry of minimal access time. -/
theorem lruEntry_min {l : List (String × CachedTextureEntry)}
    {p : String × CachedTextureEntry} (h : lruEntry l = some p) :
    ∀ q ∈ l, p.2.lastAccessTime ≤ q.2.lastAccessTime := by
  cases l with
  | nil => simp [lruEntry] at h
  | cons q0 rest =>
    simp only [lruEntry, Option.some.injEq] at h
    subst h
    have key : ∀ (rest : List (String × CachedTextureEntry)) (acc),
        (rest.foldl (fun best q =>
          if q.2.lastAccessTime < best.2.lastAccessTime then q else best)
            acc).2.lastAccessTime ≤ acc.2.lastAccessTime ∧
        ∀ q ∈ rest, (rest.foldl (fun best q =>
          if q.2.lastAccessTime < best.2.lastAccessTime then q else best)
            acc).2.lastAccessTime ≤ q.2.lastAccessTime := by
      intro rest
      induction rest with
      | nil => simp
      | cons r rs ih =>
        intro acc
        rw [List.foldl_cons]
        obtain ⟨ih1, ih2⟩ := ih (if r.2.lastAccessTime <
          acc.2.lastAccessTime then r else acc)
        constructor
        · refine le_trans ih1 ?_
          split <;> omega
        · intro q hq
          rcases List.mem_cons.mp hq with rfl | hq
          · refine le_trans ih1 ?_
            split <;> omega
          · exact ih2 q hq
    intro q hq
    rcases List.mem_cons.mp hq with rfl | hq
    · exact (key rest q).1
    · exact (key rest q0).2 q hq

/-- Repeatedly erasing keys only removes entries. -/
theorem foldl_eraseP_sublist (ks : List String) :
    ∀ c : List (String × CachedTextureEntry),
      (ks.foldl (fun c k => c.eraseP (fun p => p.1 == k)) c).Sublist c := by
  induction ks with
  | nil => intro c; simp
  | cons k ks ih =>
    intro c
    rw [List.foldl_cons]
    exact (ih _).trans (List.eraseP_sublist c)

/-- Eviction only removes entries from the cache. -/
theorem evict_sublist (env : IconEnv) (st : IconState) :
    (evictLRUFromFontCache env st).fontTextureCache.Sublist
      st.fontTextureCache := by
  unfold evictLRUFromFontCache
  split
  · exact List.Sublist.refl _
  · split
    · exact List.Sublist.refl _
    · cases hlru : lruEntry st.fontTextureCache with
      | none => exact List.Sublist.refl _
      | some lru =>
        dsimp only
        split
        · exact (foldl_eraseP_sublist _ _).trans
            (List.eraseP_sublist st.fontTextureCache)
        · exact List.eraseP_sublist st.fontTextureCache

/-- A lookup miss survives eviction. -/
theorem evict_preserves_absent (env : IconEnv) (st : IconState) (k : String)
    (h : assocFind st.fontTextureCache k = none) :
    assocFind (evictLRUFromFontCache env st).fontTextureCache k = none :=
  assocFind_none_of_sublist (evict_sublist env st) h

/-- The minimum scan fails only on the empty cache. -/
theorem lruEntry_eq_none {l : List (String × CachedTextureEntry)}
    (h : lruEntry l = none) : l = [] := by
  cases l with
  | nil => rfl
  | cons p rest => simp [lruEntry] at h

/-- Evicting from a cache exactly at capacity with a live device removes
exactly one entry. -/
theorem evict_length_of_full (env : IconEnv) (st : IconState)
    (hdev : env.deviceOk = true)
    (hlen : st.fontTextureCache.length = MAX_FONT_CACHE_SIZE) :
    (evictLRUFromFontCache env st).fontTextureCache.length =
      MAX_FONT_CACHE_SIZE - 1 := by
  have hne : st.fontTextureCache ≠ [] := by
    intro hc
    rw [hc] at hlen
    simp [MAX_FONT_CACHE_SIZE] at hlen
  unfold evictLRUFromFontCache
  rw [if_neg hne, if_neg (by rw [hdev]; simp)]
  cases hlru : lruEntry st.fontTextureCache with
  | none => exact absurd (lruEntry_eq_none hlru) hne
  | some lru =>
    dsimp only
    have hlen1 : (st.fontTextureCache.eraseP
        (fun p => p.1 == lru.1)).length = MAX_FONT_CACHE_SIZE - 1 := by
      rw [List.length_eraseP_of_mem (lruEntry_mem hlru)
        (beq_self_eq_true lru.1), hlen]
    rw [if_neg (by rw [hlen1]; simp [MAX_FONT_CACHE_SIZE])]
    exact hlen1

/-- With a live device and a non-empty cache with distinct keys, eviction
removes an entry of minimal access time, and that key is gone afterwards. -/
theorem evict_lru_spec (env : IconEnv) (st : IconState)
    (hdev : env.deviceOk = true) (hne : st.fontTextureCache ≠ [])
    (hnd : (st.fontTextureCache.map Prod.fst).Nodup) :
    ∃ k e, (k, e) ∈ st.fontTextureCache ∧
      (∀ e' ∈ st.fontTextureCache.map Prod.snd,
        e.lastAccessTime ≤ e'.lastAccessTime) ∧
      assocFind (evictLRUFromFontCache env st).fontTextureCache k = none := by
  cases hlru : lruEntry st.fontTextureCache with
  | none => exact absurd (lruEntry_eq_none hlru) hne
  | some lru =>
    refine ⟨lru.1, lru.2, lruEntry_mem hlru, ?_, ?_⟩
    · intro e' he'
      rcases List.mem_map.mp he' with ⟨q, hq, rfl⟩
      exact lruEntry_min hlru q hq
    · have habs : assocFind (st.fontTextureCache.eraseP
          (fun p => p.1 == lru.1)) lru.1 = none :=
        assocFind_eraseP_self hnd lru.1
      unfold evictLRUFromFontCache
      rw [if_neg hne, if_neg (by rw [hdev]; simp), hlru]
      dsimp only
      split
      · exact assocFind_none_of_sublist (foldl_eraseP_sublist _ _) habs
      · exact habs

/-- C1: getTextureInfo keeps the font-texture cache within
MAX_FONT_CACHE_SIZE, and when a miss occurs with the cache at capacity and an
entry is inserted (the call returns a texture), an entry of minimal access
time present before the call has been evicted and is absent afterwards. -/
theorem iconCache_bounded (env : IconEnv) (st : IconState) (fontName : String)
    (codepoint : Nat) (size : ℚ) (now : Nat)
    (hcap : st.fontTextureCache.length ≤ MAX_FONT_CACHE_SIZE)
    (hnd : (st.fontTextureCache.map Prod.fst).Nodup) :
    (getTextureInfo env st fontName codepoint size now).1.fontTextureCache.length
        ≤ MAX_FONT_CACHE_SIZE ∧
    (assocFind st.fontTextureCache
        (fontCacheKey fontName codepoint (quantizeSize size)) = none →
      MAX_FONT_CACHE_SIZE ≤ st.fontTextureCache.length →
      ((getTextureInfo env st fontName codepoint size now).2).isSome = true →
      ∃ k e, (k, e) ∈ st.fontTextureCache ∧
        (∀ e' ∈ st.fontTextureCache.map Prod.snd,
          e.lastAccessTime ≤ e'.lastAccessTime) ∧
        assocFind
          (getTextureInfo env st fontName codepoint size now).1.fontTextureCache
          k = none) := by
  cases hfind : assocFind st.fontTextureCache
      (fontCacheKey fontName codepoint (quantizeSize size)) with
  | some e =>
    unfold getTextureInfo
    simp only [hfind]
    constructor
    · simpa [touchEntry] using hcap
    · intro h1
      exact absurd h1 (by simp [hfind])
  | none =>
    unfold getTextureInfo
    simp only [hfind]
    set st1 := if MAX_FONT_CACHE_SIZE ≤ st.fontTextureCache.length then
      evictLRUFromFontCache env st else st with hst1
    have hst1cap : st1.fontTextureCache.length ≤ MAX_FONT_CACHE_SIZE := by
      rw [hst1]
      split
      · exact le_trans (List.Sublist.length_le (evict_sublist env st)) hcap
      · exact hcap
    have hst1small : env.deviceOk = true →
        st1.fontTextureCache.length ≤ MAX_FONT_CACHE_SIZE - 1 := by
      intro hdev
      by_cases hfull : MAX_FONT_CACHE_SIZE ≤ st.fontTextureCache.length
      · rw [hst1, if_pos hfull,
          evict_length_of_full env st hdev (le_antisymm hcap hfull)]
      · rw [hst1, if_neg hfull]
        omega
    split
    next hfont => exact ⟨hst1cap, fun _ _ hsome => absurd hsome (by simp)⟩
    next hfont =>
      split
      next hss => exact ⟨hst1cap, fun _ _ hsome => absurd hsome (by simp)⟩
      next hss =>
        split
        next heq => exact ⟨hst1cap, fun _ _ hsome => absurd hsome (by simp)⟩
        next w h heq =>
          split
          next hwh => exact ⟨hst1cap, fun _ _ hsome => absurd hsome (by simp)⟩
          next hwh =>
            split
            next hdv =>
              exact ⟨hst1cap, fun _ _ hsome => absurd hsome (by simp)⟩
            next hdv =>
              split
              next hct =>
                exact ⟨hst1cap, fun _ _ hsome => absurd hsome (by simp)⟩
              next hct =>
                have hdev : env.deviceOk = true := by simpa using hdv
                constructor
                · refine le_trans (assocSet_length_le _ _ _) ?_
                  have hs := hst1small hdev
                  have h128 : MAX_FONT_CACHE_SIZE = 128 := rfl
                  omega
                · intro hm hfull hsome
                  have hne : st.fontTextureCache ≠ [] := by
                    intro hc
                    rw [hc] at hfull
                    simp [MAX_FONT_CACHE_SIZE] at hfull
                  obtain ⟨k, e', hmem, hmin, habs⟩ :=
                    evict_lru_spec env st hdev hne hnd
                  have hbeq : ((k, e').1 ==
                      fontCacheKey fontName codepoint (quantizeSize size)) =
                      false := by
                    have hm2 := hfind
                    rw [assocFind_eq_none] at hm2
                    exact hm2 (k, e') hmem
                  have hkne : fontCacheKey fontName codepoint
                      (quantizeSize size) ≠ k := by
                    intro hcontra
                    rw [← hcontra] at hbeq
                    simp at hbeq
                  have hst1e : st1 = evictLRUFromFontCache env st := by
                    rw [hst1, if_pos hfull]
                  refine ⟨k, e', hmem, hmin, ?_⟩
                  show assocFind (assocSet st1.fontTextureCache _ _) k = none
                  rw [hst1e]
                  exact assocFind_assocSet_ne _ hkne (by rw [← hst1e]; rw [hst1e]; exact habs)

set_option maxRecDepth 100000 in
/-- C1 (witness): the cache-bound theorem applied to a miss on a full
128-entry cache with every GPU call succeeding. -/
theorem iconCache_bounded_witness :
    (getTextureInfo iconEnvW iconStateFull "f" 200 16
        999).1.fontTextureCache.length ≤ MAX_FONT_CACHE_SIZE ∧
    ∃ k e, (k, e) ∈ iconStateFull.fontTextureCache ∧
      (∀ e' ∈ iconStateFull.fontTextureCache.map Prod.snd,
        e.lastAccessTime ≤ e'.lastAccessTime) ∧
      assocFind
        (getTextureInfo iconEnvW iconStateFull "f" 200 16
          999).1.fontTextureCache k = none :=
  ⟨(iconCache_bounded iconEnvW iconStateFull "f" 200 16 999 (by decide)
      (by decide)).1,
   (iconCache_bounded iconEnvW iconStateFull "f" 200 16 999 (by decide)
      (by decide)).2 (by decide) (by decide) (by decide)⟩

/-- C10: a glyph that renders to a bitmap with zero width or height makes
getTextureInfo return null and insert nothing: the key misses again after
the call, so a later identical request repeats the whole load-and-render
path. -/
theorem zeroSizeGlyph_not_cached (env : IconEnv) (st : IconState)
    (fontName : String) (codepoint : Nat) (size : ℚ) (now : Nat) (w h : Nat)
    (hmiss : assocFind st.fontTextureCache
      (fontCacheKey fontName codepoint (quantizeSize size)) = none)
    (hbm : env.glyphBitmap fontName codepoint
      (quantizeSize size).floor.toNat = some (w, h))
    (hzero : w = 0 ∨ h = 0) :
    (getTextureInfo env st fontName codepoint size now).2 = none ∧
    assocFind
      (getTextureInfo env st fontName codepoint size now).1.fontTextureCache
      (fontCacheKey fontName codepoint (quantizeSize size)) = none := by
  unfold getTextureInfo
  simp only [hmiss]
  set st1 := if MAX_FONT_CACHE_SIZE ≤ st.fontTextureCache.length then
    evictLRUFromFontCache env st else st with hst1
  have habs : assocFind st1.fontTextureCache
      (fontCacheKey fontName codepoint (quantizeSize size)) = none := by
    rw [hst1]
    split
    · exact evict_preserves_absent env st _ hmiss
    · exact hmiss
  split
  next => exact ⟨rfl, habs⟩
  next =>
    split
    next => exact ⟨rfl, habs⟩
    next =>
      split
      next => exact ⟨rfl, habs⟩
      next w' h' heq =>
        rw [hbm] at heq
        have hww : w = w' ∧ h = h' := by
          simpa using heq
        obtain ⟨hw, hh⟩ := hww
        subst hw
        subst hh
        split
        next hwh => exact ⟨rfl, habs⟩
        next hwh => exact absurd hzero hwh

/-- The shelf scan never changes the number of shelves. -/
theorem allocShelves_some_length (size gw gh : Nat) :
    ∀ (l : List AtlasShelf) (x y : Nat) (l' : List AtlasShelf),
      allocShelves size gw gh l = some (x, y, l') → l'.length = l.length := by
  intro l
  induction l with
  | nil => intro x y l' h; simp [allocShelves] at h
  | cons s rest ih =>
    intro x y l' h
    rw [allocShelves] at h
    split at h
    · cases h; simp
    · cases hrec : allocShelves size gw gh rest with
      | none => rw [hrec] at h; cases h
      | some t =>
        obtain ⟨a, b, rest'⟩ := t
        have hlen := ih a b rest' hrec
        rw [hrec] at h
        cases h
        simpa using hlen

/-- A successful allocation changes only the shelves (by at most one new
shelf) and the vertical cursor. -/
theorem allocate_some_inv (A : Atlas) (w h x y : Nat) (A' : Atlas)
    (halloc : allocate A w h = some (x, y, A')) :
    A'.size = A.size ∧ A'.padding = A.padding ∧ A'.glyphMap = A.glyphMap ∧
      A'.shelves.length ≤ A.shelves.length + 1 := by
  simp only [allocate] at halloc
  cases has : allocShelves A.size (w + A.padding) (h + A.padding) A.shelves with
  | some t =>
    obtain ⟨a, b, l'⟩ := t
    have hlen := allocShelves_some_length A.size (w + A.padding)
      (h + A.padding) A.shelves a b l' has
    simp only [has, Option.some.injEq, Prod.mk.injEq] at halloc
    obtain ⟨ha, hb, hA⟩ := halloc
    subst hA
    exact ⟨rfl, rfl, rfl, by simp [hlen]⟩
  | none =>
    simp only [has] at halloc
    split at halloc
    · simp only [Option.some.injEq, Prod.mk.injEq] at halloc
      obtain ⟨ha, hb, hA⟩ := halloc
      subst hA
      exact ⟨rfl, rfl, rfl, by simp⟩
    · cases halloc

/-- C6: allocate is first-fit in shelf-creation order. If some shelf fits the
padded glyph, the first such shelf provides the position and only its x
cursor advances; if none fits, a new shelf opens at the vertical cursor
exactly when the padded height still fits in the atlas, else allocation
fails. -/
theorem allocate_first_fit (st : Atlas) (width height : Nat) :
    (∀ (pre : List AtlasShelf) (s : AtlasShelf) (post : List AtlasShelf),
      st.shelves = pre ++ s :: post →
      (∀ s' ∈ pre,
        shelfFits st.size (width + st.padding) (height + st.padding) s' =
          false) →
      shelfFits st.size (width + st.padding) (height + st.padding) s = true →
      allocate st width height = some (s.x, s.y,
        { st with shelves :=
            pre ++ { s with x := s.x + (width + st.padding) } :: post })) ∧
    ((∀ s' ∈ st.shelves,
        shelfFits st.size (width + st.padding) (height + st.padding) s' =
          false) →
      allocate st width height =
        if st.currentShelfY + (height + st.padding) ≤ st.size then
          some (0, st.currentShelfY,
            { st with
                shelves := st.shelves ++
                  [⟨st.currentShelfY, height + st.padding,
                    width + st.padding⟩],
                currentShelfY := st.currentShelfY + (height + st.padding) })
        else none) := by
  have keyA : ∀ (pre : List AtlasShelf) (s : AtlasShelf)
      (post : List AtlasShelf),
      (∀ s' ∈ pre,
        shelfFits st.size (width + st.padding) (height + st.padding) s' =
          false) →
      shelfFits st.size (width + st.padding) (height + st.padding) s = true →
      allocShelves st.size (width + st.padding) (height + st.padding)
        (pre ++ s :: post) = some (s.x, s.y,
          pre ++ { s with x := s.x + (width + st.padding) } :: post) := by
    intro pre
    induction pre with
    | nil =>
      intro s post _ hs
      rw [List.nil_append, allocShelves, if_pos hs, List.nil_append]
    | cons p pre ih =>
      intro s post hpre hs
      rw [List.cons_append, allocShelves,
        if_neg (by rw [hpre p (List.mem_cons_self p pre)]; simp),
        ih s post (fun q hq => hpre q (List.mem_cons_of_mem p hq)) hs,
        List.cons_append]
  have keyB : ∀ l : List AtlasShelf,
      (∀ s' ∈ l,
        shelfFits st.size (width + st.padding) (height + st.padding) s' =
          false) →
      allocShelves st.size (width + st.padding) (height + st.padding) l =
        none := by
    intro l
    induction l with
    | nil => intro _; rfl
    | cons p rest ih =>
      intro hall
      rw [allocShelves,
        if_neg (by rw [hall p (List.mem_cons_self p rest)]; simp),
        ih (fun q hq => hall q (List.mem_cons_of_mem p hq))]
  constructor
  · intro pre s post hdecomp hpre hs
    unfold allocate
    dsimp only
    rw [hdecomp, keyA pre s post hpre hs]
  · intro hall
    unfold allocate
    dsimp only
    rw [keyB st.shelves hall]

/-- C6 (witness): first-fit allocation of a 3x3 glyph (padded to 5x5) in the
two-shelf atlas takes the first shelf at (5, 0) and advances its cursor. -/
theorem allocate_first_fit_witness :
    allocate atlasShelvesW 3 3 = some (5, 0,
      { size := 16, padding := 2, shelves := [⟨0, 10, 10⟩, ⟨10, 20, 0⟩],
        currentShelfY := 30, glyphMap := [] }) :=
  (allocate_first_fit atlasShelvesW 3 3).1 [] ⟨0, 10, 5⟩ [⟨10, 20, 0⟩] rfl
    (fun s' hs' => absurd hs' (List.not_mem_nil s')) (by decide)

/-- C5: when addGlyph misses the cache and allocation fails, then below 4096
(and with the doubled texture creatable) the atlas is expanded to exactly
twice its size with the whole packing state discarded: afterwards the shelf
list holds at most the one shelf of the re-attempted allocation and no
previously cached code point remains; at 4096 expansion fails and addGlyph
returns nullopt leaving the state unchanged. -/
theorem addGlyph_expand_policy (env : AtlasEnv) (st : Atlas) (codepoint : Nat)
    (bitmapNonNull : Bool) (width height : Nat) (bearingX bearingY : Int)
    (advanceX : ℚ)
    (hmiss : assocFind st.glyphMap codepoint = none)
    (halloc : allocate st width height = none) :
    (st.size < 4096 → env.createTexOk (st.size * 2) = true →
      ((addGlyph env st codepoint bitmapNonNull width height bearingX bearingY
          advanceX).1.size = st.size * 2 ∧
       (addGlyph env st codepoint bitmapNonNull width height bearingX bearingY
          advanceX).1.shelves.length ≤ 1 ∧
       ∀ c, c ≠ codepoint →
         assocFind (addGlyph env st codepoint bitmapNonNull width height
           bearingX bearingY advanceX).1.glyphMap c = none)) ∧
    (4096 ≤ st.size →
      addGlyph env st codepoint bitmapNonNull width height bearingX bearingY
        advanceX = (st, none)) := by
  unfold addGlyph
  simp only [hmiss, halloc]
  constructor
  · intro hlt hcreate
    have hexp : expand env st = some
        { st with
          size := st.size * 2, glyphMap := [], shelves := [],
          currentShelfY := 0 } := by
      unfold expand
      rw [if_neg (by omega), if_pos hcreate]
    simp only [hexp]
    cases halloc2 : allocate
        { st with
          size := st.size * 2, glyphMap := [], shelves := [],
          currentShelfY := 0 } width height with
    | none =>
      simp only [halloc2]
      exact ⟨by simp, by simp, fun c _ => by simp [assocFind]⟩
    | some t =>
      obtain ⟨x, y, st1⟩ := t
      obtain ⟨hsz, hpad, hmap, hlen⟩ :=
        allocate_some_inv _ width height x y st1 halloc2
      simp only [halloc2]
      unfold addGlyphFinish
      split
      · refine ⟨hsz, by simpa using hlen, ?_⟩
        intro c hc
        show assocFind (assocSet st1.glyphMap codepoint _) c = none
        rw [hmap]
        show assocFind (assocSet ([] : List (Nat × AtlasGlyph)) codepoint _)
          c = none
        unfold assocSet assocFind
        simp [Ne.symm hc]
      · exact ⟨hsz, by simpa using hlen, fun c _ => by rw [hmap]; simp [assocFind]⟩
  · intro hge
    have hexp : expand env st = none := by
      unfold expand
      rw [if_pos hge]
    simp only [hexp]

/-- C5 (witness): the expansion policy applied to a cache miss with a failing
allocation in the exhausted default-size atlas: the atlas doubles to 4096 and
codepoint 3 is not cached afterwards. -/
theorem addGlyph_expand_policy_witness :
    (addGlyph atlasEnvW atlasFullW 7 true 10 10 0 0 0).1.size =
        atlasFullW.size * 2 ∧
      assocFind (addGlyph atlasEnvW atlasFullW 7 true 10 10 0 0
        0).1.glyphMap 3 = none :=
  ⟨((addGlyph_expand_policy atlasEnvW atlasFullW 7 true 10 10 0 0 0
      (by decide) (by decide)).1 (by decide) (by decide)).1,
   ((addGlyph_expand_policy atlasEnvW atlasFullW 7 true 10 10 0 0 0
      (by decide) (by decide)).1 (by decide) (by decide)).2.2 3 (by decide)⟩

/-- If every batch has zero vertices (resp. indices), the 32-bit running
total stays zero. -/
theorem calculateBatchTotals_zero (batches : List RenderBatch) :
    ((∀ b ∈ batches, b.vertices = 0) → (calculateBatchTotals batches).1 = 0) ∧
    ((∀ b ∈ batches, b.indices = 0) → (calculateBatchTotals batches).2 = 0) := by
  have key : ∀ (l : List RenderBatch) (acc : Nat × Nat),
      (acc.1 = 0 → (∀ b ∈ l, b.vertices = 0) →
        (l.foldl (fun acc b => ((acc.1 + b.vertices) % 2 ^ 32,
          (acc.2 + b.indices) % 2 ^ 32)) acc).1 = 0) ∧
      (acc.2 = 0 → (∀ b ∈ l, b.indices = 0) →
        (l.foldl (fun acc b => ((acc.1 + b.vertices) % 2 ^ 32,
          (acc.2 + b.indices) % 2 ^ 32)) acc).2 = 0) := by
    intro l
    induction l with
    | nil => intro acc; exact ⟨fun h _ => h, fun h _ => h⟩
    | cons b t ih =>
      intro acc
      constructor
      · intro hacc hall
        rw [List.foldl_cons]
        refine (ih _).1 ?_ (fun q hq => hall q (List.mem_cons_of_mem b hq))
        simp [hacc, hall b (List.mem_cons_self b t)]
      · intro hacc hall
        rw [List.foldl_cons]
        refine (ih _).2 ?_ (fun q hq => hall q (List.mem_cons_of_mem b hq))
        simp [hacc, hall b (List.mem_cons_self b t)]
  unfold calculateBatchTotals
  exact ⟨fun h => (key batches (0, 0)).1 rfl h,
         fun h => (key batches (0, 0)).2 rfl h⟩

/-- C9: a frame whose batches have zero total vertices or zero total indices
makes execute a no-op: the state (frame index, the two frame resources, the
transfer buffer size) is returned unchanged and no GPU action (no buffer
write, no submission) is recorded. -/
theorem execute_skips_empty_frame (env : CBEnv) (st : CBState)
    (batches : List RenderBatch)
    (h : (batches.map (fun b => b.vertices)).sum = 0 ∨
         (batches.map (fun b => b.indices)).sum = 0) :
    execute env st batches = (st, []) := by
  unfold execute
  split
  · rfl
  · rw [if_pos ?hz]
    case hz =>
      rcases h with h | h
      · exact Or.inl ((calculateBatchTotals_zero batches).1
          (by simpa [List.sum_eq_zero_iff] using h))
      · exact Or.inr ((calculateBatchTotals_zero batches).2
          (by simpa [List.sum_eq_zero_iff] using h))

/-- C9 (witness): executing a frame holding one batch with no geometry
leaves the fresh command-buffer state untouched and records no GPU action. -/
theorem execute_skips_empty_frame_witness :
    execute cbEnvW cbStateW
      [{ vertices := 0, indices := 0, hasTexture := false,
         hasScissor := false }] = (cbStateW, []) :=
  execute_skips_empty_frame cbEnvW cbStateW
    [{ vertices := 0, indices := 0, hasTexture := false, hasScissor := false }]
    (Or.inl (by decide))

/-- C10 (witness): requesting a glyph that renders at zero width on an empty
cache returns null and leaves the key uncached. -/
theorem zeroSizeGlyph_not_cached_witness :
    (getTextureInfo iconEnvZeroW iconStateEmpty "f" 3 16 7).2 = none ∧
    assocFind
      (getTextureInfo iconEnvZeroW iconStateEmpty "f" 3 16
        7).1.fontTextureCache
      (fontCacheKey "f" 3 (quantizeSize 16)) = none :=
  zeroSizeGlyph_not_cached iconEnvZeroW iconStateEmpty "f" 3 16 7 0 5
    (by decide) (by decide) (Or.inl rfl)
